import Mathlib

/-!
Verification of the natural-language specification of the lipyphilic
tutorial repository.  The repository material consists of notebooks that
call two algorithmic components of the `lipyphilic` library: the
leaflet-transition detector (`FlipFlop`) and the neighbour-matrix /
largest-cluster engine (`Neighbours`).  The algorithm code itself is not
part of the repository, so both components are modelled here from the
specification, and all results are stated against these models.
-/

/-! # Definitions

The data model and operations of the two components, in dependency
order: the flip-flop state machine and its run-length-block view, the
adjacency builder, and the cluster extractor with its largest-cluster
query. -/

/-- A completed flip-flop event, as described by the spec's data model:
the origin leaflet, the last frame at which the particle resided in its
origin leaflet (`depart`), the first frame of the residence run that
closed the event (`arrive`), the resulting leaflet, and whether the
event was a Success or a Fail. -/
structure FlipFlopEvent where
  origin : Int
  depart : Nat
  arrive : Nat
  leaflet : Int
  success : Bool
deriving DecidableEq, Repr

/-- Modelled from the spec: the per-particle states of the flip-flop
state machine (`Resident` / `Transitioning`), together with the
undefined-origin resident state used when the first observed label is
the midplane.  `trans origin dep cand since` records the origin leaflet,
the frame at which the particle first left the origin leaflet (`dep`),
the current candidate leaflet, and the first frame of the current
candidate run (`since`). -/
inductive FFState where
  | undef : FFState
  | resident : Int → FFState
  | trans : Int → Nat → Int → Nat → FFState
deriving DecidableEq, Repr

/-- Modelled from the spec: close the current candidate run at frame `t`
if the run length `t - s + 1` has reached the minimum-residency
threshold `cutoff`; in that case a Success event is emitted whose
departure field is the last frame spent in the origin leaflet (`d - 1`)
and whose arrival field is the first frame of the confirmed run (`s`),
matching the spec's event description and its Scenario B. -/
def ffSettle (cutoff : Nat) (o : Int) (d : Nat) (c : Int) (s t : Nat) :
    FFState × Option FlipFlopEvent :=
  if cutoff ≤ t - s + 1 then
    (FFState.resident c, some ⟨o, d - 1, s, c, true⟩)
  else
    (FFState.trans o d c s, none)

/-- Modelled from the spec: one step of the flip-flop state machine on
the label observed at frame `t`.  Absent from the repository source; the
transition rules follow section 4.4 of the spec. -/
def ffStep (cutoff : Nat) (t : Nat) (lab : Int) :
    FFState → FFState × Option FlipFlopEvent
  | FFState.undef =>
      (if lab = 0 then FFState.undef else FFState.resident lab, none)
  | FFState.resident L =>
      if lab = L then (FFState.resident L, none)
      else ffSettle cutoff L t lab t t
  | FFState.trans o d c s =>
      if lab = c then ffSettle cutoff o d c s t
      else if lab = o then (FFState.resident o, some ⟨o, d - 1, t, o, false⟩)
      else ffSettle cutoff o d lab t t

/-- Run the state machine over the remaining labels, frame `t` first.
Any transition still open at the end of the series is discarded. -/
def ffRunAux (cutoff : Nat) : FFState → Nat → List Int → List FlipFlopEvent
  | _, _, [] => []
  | st, t, lab :: rest =>
      let p := ffStep cutoff t lab st
      p.2.toList ++ ffRunAux cutoff p.1 (t + 1) rest

/-- Modelled from the spec: initial state of the detector, determined
by the label at the first analysed frame. -/
def ffInit (lab : Int) : FFState :=
  if lab = 0 then FFState.undef else FFState.resident lab

/-- Modelled from the spec: the full list of flip-flop events emitted
for one particle's leaflet-label series. -/
def ffEvents (cutoff : Nat) : List Int → List FlipFlopEvent
  | [] => []
  | lab :: rest => ffRunAux cutoff (ffInit lab) 1 rest

/-- Number of Success events emitted for a series. -/
def ffSuccessCount (cutoff : Nat) (labels : List Int) : Nat :=
  ((ffEvents cutoff labels).filter (fun e => e.success)).length

/-- Number of Fail events emitted for a series. -/
def ffFailCount (cutoff : Nat) (labels : List Int) : Nat :=
  ((ffEvents cutoff labels).filter (fun e => !e.success)).length

/-- Erased machine state: `tr o c m` records the origin, the candidate
leaflet and the number of consecutive frames already spent at the
candidate. -/
inductive AState where
  | undef : AState
  | res : Int → AState
  | tr : Int → Int → Nat → AState
deriving DecidableEq, Repr

/-- Erased counterpart of `ffSettle`. -/
def aSettle (cutoff : Nat) (o c : Int) (m : Nat) : AState × Bool :=
  if cutoff ≤ m then (AState.res c, true) else (AState.tr o c m, false)

/-- Erased counterpart of `ffStep`; the boolean reports a Success
emission. -/
def aStep (cutoff : Nat) (lab : Int) : AState → AState × Bool
  | AState.undef => (if lab = 0 then AState.undef else AState.res lab, false)
  | AState.res L =>
      if lab = L then (AState.res L, false) else aSettle cutoff L lab 1
  | AState.tr o c m =>
      if lab = c then aSettle cutoff o c (m + 1)
      else if lab = o then (AState.res o, false)
      else aSettle cutoff o lab 1

/-- Success count of the erased machine over the remaining labels. -/
def aCount (cutoff : Nat) : AState → List Int → Nat
  | _, [] => 0
  | st, lab :: rest =>
      (if (aStep cutoff lab st).2 then 1 else 0) +
        aCount cutoff (aStep cutoff lab st).1 rest

/-- Erase a concrete machine state at current frame `t`. -/
def eraseSt (t : Nat) : FFState → AState
  | FFState.undef => AState.undef
  | FFState.resident L => AState.res L
  | FFState.trans o _ c s => AState.tr o c (t - s)

/-- Prepend a run of `m` copies of label `l` to a run-length encoding. -/
def rleAdd (l : Int) (m : Nat) : List (Int × Nat) → List (Int × Nat)
  | [] => [(l, m)]
  | (l2, k) :: bs => if l2 = l then (l, m + k) :: bs else (l, m) :: (l2, k) :: bs

/-- Run-length encoding of a label series. -/
def rle : List Int → List (Int × Nat)
  | [] => []
  | l :: rest => rleAdd l 1 (rle rest)

/-- Success count of the scan over run-length blocks, starting resident
in label `o`. -/
def scanS (cutoff : Nat) (o : Int) : List (Int × Nat) → Nat
  | [] => 0
  | (l, k) :: bs =>
      if l = o then scanS cutoff o bs
      else if cutoff ≤ k then 1 + scanS cutoff l bs
      else scanS cutoff o bs

/-- Total Success count over blocks: skip a leading midplane block, then
anchor at the first block and scan the remainder. -/
def blockS (cutoff : Nat) : List (Int × Nat) → Nat
  | [] => 0
  | (l, _) :: bs => if l = 0 then blockS cutoff bs else scanS cutoff l bs

/-- States whose stored leaflet labels are genuine (non-midplane)
leaflet values. -/
def ffStateLeafletsOK : FFState → Prop
  | FFState.undef => True
  | FFState.resident L => L = 1 ∨ L = -1
  | FFState.trans o _ c _ => (o = 1 ∨ o = -1) ∧ (c = 1 ∨ c = -1)

/-- A 3-d position (or box-dimension triple) with rational coordinates. -/
abbrev Pos3 := ℚ × ℚ × ℚ

/-- Modelled from the spec: squared one-dimensional minimum-image
separation for a periodic box length `L`; the plain squared separation
is used when no positive box length applies. -/
def minImageSq (d L : ℚ) : ℚ :=
  if 0 < L then
    (min (L * Int.fract (d / L)) (L - L * Int.fract (d / L))) ^ 2
  else d ^ 2

/-- Modelled from the spec: squared minimum-image distance between two
positions, periodic in the box dimensions when they are supplied and
plain Euclidean otherwise. -/
def distSqPBC (box : Option Pos3) (p q : Pos3) : ℚ :=
  match box with
  | none => (p.1 - q.1) ^ 2 + (p.2.1 - q.2.1) ^ 2 + (p.2.2 - q.2.2) ^ 2
  | some b =>
      minImageSq (p.1 - q.1) b.1 + minImageSq (p.2.1 - q.2.1) b.2.1 +
        minImageSq (p.2.2 - q.2.2) b.2.2

/-- Modelled from the spec: two particles are adjacent iff they are
distinct and their minimum-image distance is strictly below the cutoff. -/
def adjacentB (cutoff : ℚ) (box : Option Pos3) (ps : List Pos3)
    (i j : Nat) : Bool :=
  decide (i ≠ j) &&
    decide (distSqPBC box (ps.getD i (0, 0, 0)) (ps.getD j (0, 0, 0)) <
      cutoff ^ 2)

/-- Modelled from the spec: the boolean neighbour matrix of one frame. -/
def neighbourMatrix (cutoff : ℚ) (box : Option Pos3) (ps : List Pos3) :
    List (List Bool) :=
  (List.range ps.length).map fun i =>
    (List.range ps.length).map fun j => adjacentB cutoff box ps i j

/-- Entry lookup in a boolean matrix, `false` outside its bounds. -/
def matAt (A : List (List Bool)) (i j : Nat) : Bool :=
  (A.getD i []).getD j false

/-- The error kinds of the analysis components (spec section 7). -/
inductive AnalysisError where
  | configurationError : AnalysisError
  | notComputedError : AnalysisError
deriving DecidableEq, Repr

/-- A validated adjacency-builder configuration. -/
structure NbSetup where
  cutoff : ℚ
  box : Option Pos3
  ps : List Pos3
deriving DecidableEq, Repr

/-- Modelled from the spec: constructing the adjacency builder fails
with `ConfigurationError` when the cutoff is not positive or fewer than
two particles are selected, and succeeds otherwise. -/
def mkNeighbours (cutoff : ℚ) (box : Option Pos3) (ps : List Pos3) :
    Except AnalysisError NbSetup :=
  if cutoff ≤ 0 then Except.error AnalysisError.configurationError
  else if ps.length < 2 then Except.error AnalysisError.configurationError
  else Except.ok ⟨cutoff, box, ps⟩

/-- Strict lexicographic order on index lists. -/
def lexLt : List Nat → List Nat → Bool
  | [], [] => false
  | [], _ :: _ => true
  | _ :: _, [] => false
  | a :: as, b :: bs => decide (a < b) || (decide (a = b) && lexLt as bs)

/-- The preference order on candidate clusters: strictly larger wins,
and at equal size the lexicographically smaller sorted list wins. -/
def keyLt (a b : List Nat) : Bool :=
  decide (b.length < a.length) ||
    (decide (a.length = b.length) && lexLt a b)

/-- Keep the better of the accumulated candidate and the next one. -/
def pickBetter (acc c : List Nat) : List Nat :=
  if keyLt c acc then c else acc

/-- Choose the best cluster in a list (empty when the list is empty). -/
def chooseBest (comps : List (List Nat)) : List Nat :=
  comps.foldl pickBetter []

/-- Modelled from the spec: the vertices of the per-frame subgraph —
particle indices that pass the caller's filter set and, when an
inclusion mask is given, are marked included at frame `f`. -/
def vertsAt (n : Nat) (fl : List Bool)
    (mask : Option (List (List Bool))) (f : Nat) : List Nat :=
  (List.range n).filter fun i =>
    fl.getD i false &&
      (match mask with
       | none => true
       | some m => (m.getD i []).getD f false)

/-- Neighbours of `i` inside the working vertex set. -/
def nbrList (A : List (List Bool)) (V : List Nat) (i : Nat) : List Nat :=
  V.filter fun j => matAt A i j

/-- One breadth-first growth round: add every neighbour of the current
set that lies in the working vertex set. -/
def growStep (A : List (List Bool)) (V : List Nat) (S : List Nat) :
    List Nat :=
  (S ++ (S.map (nbrList A V)).flatten).dedup

/-- Modelled from the spec: the connected component of `i` in the masked
subgraph, computed by breadth-first growth with fuel `V.length`. -/
def compOf (A : List (List Bool)) (V : List Nat) (i : Nat) : List Nat :=
  (growStep A V)^[V.length] [i]

/-- Sort a member list ascending. -/
def sortC (l : List Nat) : List Nat :=
  List.insertionSort (fun a b => a ≤ b) l

/-- Modelled from the spec: the connected components of the masked,
filtered subgraph, one sorted member list per component. -/
def componentsAt (A : List (List Bool)) (V : List Nat) :
    List (List Nat) :=
  (V.map fun i => sortC (compOf A V i)).dedup

/-- Modelled from the spec: the per-frame neighbour-matrix store. -/
structure NbStore where
  n : Nat
  mats : List (List (List Bool))

/-- The largest cluster of one analysed frame. -/
def lcIndicesAt (st : NbStore) (fl : List Bool)
    (mask : Option (List (List Bool))) (f : Nat) : List Nat :=
  chooseBest (componentsAt (st.mats.getD f []) (vertsAt st.n fl mask f))

/-- Modelled from the spec: `largest_cluster` with `return_indices`,
one sorted index array per analysed frame. -/
def largestClusterIndices (st : NbStore) (fl : List Bool)
    (mask : Option (List (List Bool))) : List (List Nat) :=
  (List.range st.mats.length).map (lcIndicesAt st fl mask)

/-- Modelled from the spec: `largest_cluster` sizes, one per analysed
frame. -/
def largestClusterSizes (st : NbStore) (fl : List Bool)
    (mask : Option (List (List Bool))) : List Nat :=
  (List.range st.mats.length).map fun f => (lcIndicesAt st fl mask f).length

/-- A tiny two-component example store: four particles, one frame,
edges 0-1 and 2-3, giving two components of equal size 2. -/
def exampleStore : NbStore :=
  ⟨4, [[[false, true, false, false],
        [true, false, false, false],
        [false, false, false, true],
        [false, false, true, false]]]⟩

/-! # Theorems

Supporting lemmas first, then one theorem (with witness or
counterexample where applicable) per claim. -/

theorem ffRunAux_success_eq_aCount (cutoff : Nat) :
    ∀ (rest : List Int) (st : FFState) (t : Nat),
      (∀ o d c s, st = FFState.trans o d c s → s ≤ t) →
      ((ffRunAux cutoff st t rest).filter (fun e => e.success)).length =
        aCount cutoff (eraseSt t st) rest := by
  intro rest
  induction rest with
  | nil => intro st t _; simp [ffRunAux, aCount]
  | cons lab rest ih =>
      intro st t hst
      cases st with
      | undef =>
          by_cases h0 : lab = 0
          · simp [ffRunAux, ffStep, aCount, aStep, eraseSt, h0]
            exact ih FFState.undef (t + 1) (by intro o d c s hh; cases hh)
          · simp [ffRunAux, ffStep, aCount, aStep, eraseSt, h0]
            exact ih (FFState.resident lab) (t + 1)
              (by intro o d c s hh; cases hh)
      | resident L =>
          by_cases hL : lab = L
          · simp [ffRunAux, ffStep, aCount, aStep, eraseSt, hL]
            exact ih (FFState.resident L) (t + 1)
              (by intro o d c s hh; cases hh)
          · by_cases hcut : cutoff ≤ 1
            · have hc1 : cutoff ≤ t - t + 1 := by omega
              simp [ffRunAux, ffStep, aCount, aStep, eraseSt, hL, ffSettle,
                aSettle, hcut, hc1]
              have h2 := ih (FFState.resident lab) (t + 1)
                (by intro o d c s hh; cases hh)
              simp [eraseSt] at h2
              omega
            · have hc1 : ¬ cutoff ≤ t - t + 1 := by omega
              simp [ffRunAux, ffStep, aCount, aStep, eraseSt, hL, ffSettle,
                aSettle, hcut, hc1]
              have h2 := ih (FFState.trans L t lab t) (t + 1)
                (by intro o d c s hh; cases hh; omega)
              simp [eraseSt, show t + 1 - t = 1 by omega] at h2
              exact h2
      | trans o d c s =>
          have hs : s ≤ t := hst o d c s rfl
          by_cases hc : lab = c
          · by_cases hcut : cutoff ≤ t - s + 1
            · have hcut2 : cutoff ≤ (t - s) + 1 := by omega
              simp [ffRunAux, ffStep, aCount, aStep, eraseSt, hc, ffSettle,
                aSettle, hcut, hcut2]
              have h2 := ih (FFState.resident c) (t + 1)
                (by intro o2 d2 c2 s2 hh; cases hh)
              simp [eraseSt] at h2
              omega
            · have hcut2 : ¬ cutoff ≤ (t - s) + 1 := by omega
              simp [ffRunAux, ffStep, aCount, aStep, eraseSt, hc, ffSettle,
                aSettle, hcut, hcut2]
              have h2 := ih (FFState.trans o d c s) (t + 1)
                (by intro o2 d2 c2 s2 hh; cases hh; omega)
              simp [eraseSt, show t + 1 - s = (t - s) + 1 by omega] at h2
              exact h2
          · by_cases ho : lab = o
            · subst ho
              simp [ffRunAux, ffStep, aCount, aStep, eraseSt, hc]
              exact ih (FFState.resident lab) (t + 1)
                (by intro o2 d2 c2 s2 hh; cases hh)
            · by_cases hcut : cutoff ≤ 1
              · have hc1 : cutoff ≤ t - t + 1 := by omega
                simp [ffRunAux, ffStep, aCount, aStep, eraseSt, hc, ho,
                  ffSettle, aSettle, hcut, hc1]
                have h2 := ih (FFState.resident lab) (t + 1)
                  (by intro o2 d2 c2 s2 hh; cases hh)
                simp [eraseSt] at h2
                omega
              · have hc1 : ¬ cutoff ≤ t - t + 1 := by omega
                simp [ffRunAux, ffStep, aCount, aStep, eraseSt, hc, ho,
                  ffSettle, aSettle, hcut, hc1]
                have h2 := ih (FFState.trans o d lab t) (t + 1)
                  (by intro o2 d2 c2 s2 hh; cases hh; omega)
                simp [eraseSt, show t + 1 - t = 1 by omega] at h2
                exact h2

theorem scanS_rleAdd_self (cutoff : Nat) (x : Int) (m : Nat) :
    ∀ bs, scanS cutoff x (rleAdd x m bs) = scanS cutoff x bs := by
  intro bs
  cases bs with
  | nil => simp [rleAdd, scanS]
  | cons b bs =>
      obtain ⟨l2, k⟩ := b
      by_cases h : l2 = x
      · subst h; simp [rleAdd, scanS]
      · simp [rleAdd, scanS, h]

theorem scanS_rleAdd_ge (cutoff : Nat) (o l : Int) (m : Nat)
    (hlo : l ≠ o) (hm : cutoff ≤ m) :
    ∀ bs, scanS cutoff o (rleAdd l m bs) = 1 + scanS cutoff l bs := by
  intro bs
  cases bs with
  | nil => simp [rleAdd, scanS, hlo, hm]
  | cons b bs =>
      obtain ⟨l2, k⟩ := b
      by_cases h : l2 = l
      · subst h
        simp [rleAdd, scanS, hlo, show cutoff ≤ m + k by omega]
      · simp [rleAdd, scanS, hlo, hm, h]

theorem rleAdd_rleAdd (l : Int) (m k : Nat) :
    ∀ bs, rleAdd l m (rleAdd l k bs) = rleAdd l (m + k) bs := by
  intro bs
  cases bs with
  | nil => simp [rleAdd]
  | cons b bs =>
      obtain ⟨l2, k2⟩ := b
      by_cases h : l2 = l
      · subst h; simp [rleAdd]; omega
      · simp [rleAdd, h]

theorem rleAdd_cons_ne (c l : Int) (m k : Nat) (h : l ≠ c) :
    ∀ bs, rleAdd c m (rleAdd l k bs) = (c, m) :: rleAdd l k bs := by
  intro bs
  cases bs with
  | nil => simp [rleAdd, h]
  | cons b bs =>
      obtain ⟨l2, k2⟩ := b
      by_cases h2 : l2 = l
      · subst h2; simp [rleAdd, h]
      · simp only [rleAdd, if_neg h2]
        simp [rleAdd, h]

theorem aCount_eq_scanS (cutoff : Nat) :
    ∀ rest : List Int,
      (∀ L : Int, aCount cutoff (AState.res L) rest =
        scanS cutoff L (rle rest)) ∧
      (∀ (o c : Int) (m : Nat), c ≠ o → ¬ cutoff ≤ m →
        aCount cutoff (AState.tr o c m) rest =
          scanS cutoff o (rleAdd c m (rle rest))) := by
  intro rest
  induction rest with
  | nil =>
      constructor
      · intro L; simp [aCount, rle, scanS]
      · intro o c m hco hm; simp [aCount, rle, rleAdd, scanS, hco, hm]
  | cons lab rest ih =>
      obtain ⟨ih1, ih2⟩ := ih
      constructor
      · intro L
        by_cases hL : lab = L
        · subst hL
          simp only [aCount, aStep, if_pos rfl]
          simp [rle, scanS_rleAdd_self, ih1 lab]
        · by_cases hcut : cutoff ≤ 1
          · simp only [aCount, aStep, if_neg hL, aSettle, if_pos hcut]
            simp [rle, ih1 lab, scanS_rleAdd_ge cutoff L lab 1 hL hcut]
          · simp only [aCount, aStep, if_neg hL, aSettle, if_neg hcut]
            simp [rle, ih2 L lab 1 hL hcut]
      · intro o c m hco hm
        by_cases hc : lab = c
        · subst hc
          by_cases hcut : cutoff ≤ m + 1
          · simp only [aCount, aStep, if_pos rfl, aSettle, if_pos hcut]
            simp only [rle, rleAdd_rleAdd]
            simp [ih1 lab, scanS_rleAdd_ge cutoff o lab (m + 1) hco hcut]
          · simp only [aCount, aStep, if_pos rfl, aSettle, if_neg hcut]
            simp only [rle, rleAdd_rleAdd]
            simp [ih2 o lab (m + 1) hco hcut]
        · by_cases ho : lab = o
          · subst ho
            simp only [aCount, aStep, if_neg hc, if_pos rfl]
            have hshape := rleAdd_cons_ne c lab m 1 hc (rle rest)
            simp only [rle, hshape]
            simp only [scanS, if_neg hco, if_neg hm]
            simp [ih1 lab, scanS_rleAdd_self]
          · by_cases hcut : cutoff ≤ 1
            · simp only [aCount, aStep, if_neg hc, if_neg ho, aSettle,
                if_pos hcut]
              have hshape := rleAdd_cons_ne c lab m 1 hc (rle rest)
              simp only [rle, hshape, scanS, if_neg hco, if_neg hm]
              simp [ih1 lab, scanS_rleAdd_ge cutoff o lab 1 ho hcut]
            · simp only [aCount, aStep, if_neg hc, if_neg ho, aSettle,
                if_neg hcut]
              have hshape := rleAdd_cons_ne c lab m 1 hc (rle rest)
              simp only [rle, hshape, scanS, if_neg hco, if_neg hm]
              simp [ih2 o lab 1 ho hcut]

theorem blockS_rleAdd_zero (cutoff : Nat) :
    ∀ bs, blockS cutoff (rleAdd 0 1 bs) = blockS cutoff bs := by
  intro bs
  cases bs with
  | nil => simp [rleAdd, blockS]
  | cons b bs =>
      obtain ⟨l, k⟩ := b
      by_cases h : l = 0
      · subst h; simp [rleAdd, blockS]
      · simp [rleAdd, blockS, h]

theorem blockS_rleAdd_ne_zero (cutoff : Nat) (l : Int) (m : Nat)
    (h : l ≠ 0) : ∀ bs, blockS cutoff (rleAdd l m bs) = scanS cutoff l bs := by
  intro bs
  cases bs with
  | nil => simp [rleAdd, blockS, scanS, h]
  | cons b bs =>
      obtain ⟨l2, k⟩ := b
      by_cases h2 : l2 = l
      · subst h2; simp [rleAdd, blockS, scanS, h]
      · simp [rleAdd, blockS, scanS, h, h2]

theorem aCount_undef_eq_blockS (cutoff : Nat) :
    ∀ rest : List Int,
      aCount cutoff AState.undef rest = blockS cutoff (rle rest) := by
  intro rest
  induction rest with
  | nil => simp [aCount, rle, blockS]
  | cons lab rest ih =>
      by_cases h0 : lab = 0
      · subst h0
        simp only [aCount, aStep, if_pos rfl]
        simp [rle, blockS_rleAdd_zero, ih]
      · simp only [aCount, aStep, if_neg h0]
        simp [rle, blockS_rleAdd_ne_zero cutoff lab 1 h0,
          (aCount_eq_scanS cutoff rest).1 lab]

theorem ffSuccessCount_eq_blockS (cutoff : Nat) (labels : List Int) :
    ffSuccessCount cutoff labels = blockS cutoff (rle labels) := by
  cases labels with
  | nil => simp [ffSuccessCount, ffEvents, rle, blockS]
  | cons lab rest =>
      by_cases h0 : lab = 0
      · subst h0
        have h1 := ffRunAux_success_eq_aCount cutoff rest
          (ffInit 0) 1 (by intro o d c s hh; simp [ffInit] at hh)
        simp only [ffSuccessCount, ffEvents]
        rw [h1]
        simp [ffInit, eraseSt, aCount_undef_eq_blockS, rle, blockS_rleAdd_zero]
      · have h1 := ffRunAux_success_eq_aCount cutoff rest
          (ffInit lab) 1 (by intro o d c s hh; simp [ffInit, h0] at hh)
        simp only [ffSuccessCount, ffEvents]
        rw [h1]
        simp [ffInit, h0, eraseSt, (aCount_eq_scanS cutoff rest).1 lab,
          rle, blockS_rleAdd_ne_zero cutoff lab 1 h0]

theorem scanS_mono (c c2 : Nat) (hcc : c ≤ c2) :
    ∀ bs : List (Int × Nat),
      (∀ o, scanS c2 o bs ≤ scanS c o bs) ∧
      (∀ o o2, scanS c2 o2 bs ≤ 1 + scanS c o bs) := by
  intro bs
  induction bs with
  | nil => constructor <;> intros <;> simp [scanS]
  | cons b bs ih =>
      obtain ⟨l, k⟩ := b
      obtain ⟨ih1, ih2⟩ := ih
      constructor
      · intro o
        by_cases hlo : l = o
        · subst hlo; simp only [scanS, if_pos rfl]; exact ih1 l
        · by_cases h2 : c2 ≤ k
          · have h3 : c ≤ k := le_trans hcc h2
            simp only [scanS, if_neg hlo, if_pos h2, if_pos h3]
            exact Nat.add_le_add_left (ih1 l) 1
          · simp only [scanS, if_neg hlo, if_neg h2]
            by_cases h3 : c ≤ k
            · simp only [if_pos h3]
              exact ih2 l o
            · simp only [if_neg h3]
              exact ih1 o
      · intro o o2
        by_cases hlo2 : l = o2
        · subst hlo2
          simp only [scanS, if_pos rfl]
          by_cases hlo : l = o
          · subst hlo
            simp only [if_pos rfl]
            exact le_trans (ih1 l) (Nat.le_add_left _ 1)
          · simp only [if_neg hlo]
            by_cases h3 : c ≤ k
            · simp only [if_pos h3]
              exact le_trans (ih2 l l) (by omega)
            · simp only [if_neg h3]
              exact ih2 o l
        · by_cases h2 : c2 ≤ k
          · have h3 : c ≤ k := le_trans hcc h2
            simp only [scanS, if_neg hlo2, if_pos h2]
            by_cases hlo : l = o
            · subst hlo
              simp only [if_pos rfl]
              exact Nat.add_le_add_left (ih1 l) 1
            · simp only [if_neg hlo, if_pos h3]
              have := ih1 l
              omega
          · simp only [scanS, if_neg hlo2, if_neg h2]
            by_cases hlo : l = o
            · subst hlo
              simp only [if_pos rfl]
              exact ih2 l o2
            · simp only [if_neg hlo]
              by_cases h3 : c ≤ k
              · simp only [if_pos h3]
                have := ih2 l o2
                omega
              · simp only [if_neg h3]
                exact ih2 o o2

theorem blockS_mono (c c2 : Nat) (hcc : c ≤ c2) :
    ∀ bs : List (Int × Nat), blockS c2 bs ≤ blockS c bs := by
  intro bs
  induction bs with
  | nil => simp [blockS]
  | cons b bs ih =>
      obtain ⟨l, k⟩ := b
      by_cases h : l = 0
      · subst h; simpa [blockS] using ih
      · simp only [blockS, if_neg h]
        exact (scanS_mono c c2 hcc bs).1 l

theorem ffRunAux_leaflet_pm (cutoff : Nat) :
    ∀ (rest : List Int) (st : FFState) (t : Nat),
      (∀ l ∈ rest, l = 1 ∨ l = -1) → ffStateLeafletsOK st →
      ∀ e ∈ ffRunAux cutoff st t rest, e.leaflet = 1 ∨ e.leaflet = -1 := by
  intro rest
  induction rest with
  | nil => intro st t _ _ e he; simp [ffRunAux] at he
  | cons lab rest ih =>
      intro st t hrest hst e he
      have hlab : lab = 1 ∨ lab = -1 := hrest lab (by simp)
      have hrest2 : ∀ l ∈ rest, l = 1 ∨ l = -1 := by
        intro l hl; exact hrest l (by simp [hl])
      have hlab0 : ¬ lab = 0 := by rcases hlab with h | h <;> simp [h]
      cases st with
      | undef =>
          simp only [ffRunAux, ffStep, if_neg hlab0] at he
          simp only [Option.toList_none, List.nil_append] at he
          exact ih (FFState.resident lab) (t + 1) hrest2 hlab e he
      | resident L =>
          by_cases hL : lab = L
          · simp only [ffRunAux, ffStep, if_pos hL] at he
            simp only [Option.toList_none, List.nil_append] at he
            exact ih (FFState.resident L) (t + 1) hrest2 hst e he
          · simp only [ffRunAux, ffStep, if_neg hL, ffSettle] at he
            by_cases hcut : cutoff ≤ t - t + 1
            · simp only [if_pos hcut] at he
              simp only [Option.toList_some, List.cons_append,
                List.nil_append, List.mem_cons] at he
              rcases he with he | he
              · subst he; exact hlab
              · exact ih (FFState.resident lab) (t + 1) hrest2 hlab e he
            · simp only [if_neg hcut] at he
              simp only [Option.toList_none, List.nil_append] at he
              exact ih (FFState.trans L t lab t) (t + 1) hrest2
                ⟨hst, hlab⟩ e he
      | trans o d c s =>
          obtain ⟨ho, hc⟩ := hst
          by_cases hlc : lab = c
          · simp only [ffRunAux, ffStep, if_pos hlc, ffSettle] at he
            by_cases hcut : cutoff ≤ t - s + 1
            · simp only [if_pos hcut] at he
              simp only [Option.toList_some, List.cons_append,
                List.nil_append, List.mem_cons] at he
              rcases he with he | he
              · subst he; exact hc
              · exact ih (FFState.resident c) (t + 1) hrest2 hc e he
            · simp only [if_neg hcut] at he
              simp only [Option.toList_none, List.nil_append] at he
              exact ih (FFState.trans o d c s) (t + 1) hrest2 ⟨ho, hc⟩ e he
          · by_cases hlo : lab = o
            · simp only [ffRunAux, ffStep, if_neg hlc, if_pos hlo] at he
              simp only [Option.toList_some, List.cons_append,
                List.nil_append, List.mem_cons] at he
              rcases he with he | he
              · subst he; exact ho
              · exact ih (FFState.resident o) (t + 1) hrest2 ho e he
            · simp only [ffRunAux, ffStep, if_neg hlc, if_neg hlo,
                ffSettle] at he
              by_cases hcut : cutoff ≤ t - t + 1
              · simp only [if_pos hcut] at he
                simp only [Option.toList_some, List.cons_append,
                  List.nil_append, List.mem_cons] at he
                rcases he with he | he
                · subst he; exact hlab
                · exact ih (FFState.resident lab) (t + 1) hrest2 hlab e he
              · simp only [if_neg hcut] at he
                simp only [Option.toList_none, List.nil_append] at he
                exact ih (FFState.trans o d lab t) (t + 1) hrest2
                  ⟨ho, hlab⟩ e he

/-- C1 (counterexample): the claim as stated is false on the modelled
state machine.  For the series `[1, -1, -1, 0, -1, -1]`, raising
`frame_cutoff` from 2 to 3 makes the total Fail-event count drop from
1 to 0: at cutoff 2 the excursion to -1 succeeds at once and the later
midplane wobble then fails back to -1, while at cutoff 3 the whole
series is one unresolved excursion that is discarded at the end. -/
theorem claim_C1_counterexample :
    ¬ (∀ (labels : List Int) (c c2 : Nat), c ≤ c2 →
        ffSuccessCount c2 labels ≤ ffSuccessCount c labels ∧
        ffFailCount c labels ≤ ffFailCount c2 labels) := by
  intro h
  have h1 := (h [1, -1, -1, 0, -1, -1] 2 3 (by norm_num)).2
  have h2 : ffFailCount 2 [1, -1, -1, 0, -1, -1] = 1 := by decide
  have h3 : ffFailCount 3 [1, -1, -1, 0, -1, -1] = 0 := by decide
  omega

/-- C1 (amended): increasing `frame_cutoff` never increases the total
number of Success events for a fixed label series.  (The Fail-event
count, contrary to the claim, can decrease when `frame_cutoff`
increases; see the counterexample.) -/
theorem claim_C1 (labels : List Int) (c c2 : Nat) (hcc : c ≤ c2) :
    ffSuccessCount c2 labels ≤ ffSuccessCount c labels := by
  rw [ffSuccessCount_eq_blockS, ffSuccessCount_eq_blockS]
  exact blockS_mono c c2 hcc (rle labels)

/-- Witness for C1 at a concrete input. -/
theorem claim_C1_witness :
    (1 : Nat) ≤ 3 ∧
      ffSuccessCount 3 [1, 1, 1, -1, -1, 1, 1] ≤
        ffSuccessCount 1 [1, 1, 1, -1, -1, 1, 1] :=
  ⟨by norm_num, claim_C1 [1, 1, 1, -1, -1, 1, 1] 1 3 (by norm_num)⟩

/-- C2: for the series `[1, 1, 1, -1, -1, 1, 1]` with `frame_cutoff = 1`
the detector emits exactly two events, both Success: one leaving the
origin leaflet at frame 2, arriving at frame 3, with resulting leaflet
-1, and one leaving at frame 4, arriving at frame 5, with resulting
leaflet 1. -/
theorem claim_C2 :
    ffEvents 1 [1, 1, 1, -1, -1, 1, 1] =
      [⟨1, 2, 3, -1, true⟩, ⟨-1, 4, 5, 1, true⟩] := by decide

/-- C3: for the same series with `frame_cutoff = 3` the two-frame
excursion to leaflet -1 is recorded as a single emitted event marked
Fail, and the total number of Success events is 0. -/
theorem claim_C3 :
    ffEvents 3 [1, 1, 1, -1, -1, 1, 1] = [⟨1, 2, 5, 1, false⟩] ∧
      ffSuccessCount 3 [1, 1, 1, -1, -1, 1, 1] = 0 := by decide

/-- C10 (counterexample): the claim as stated is false on the modelled
state machine.  With `frame_cutoff = 1` and series `[1, 0]`, the move to
the midplane itself satisfies the one-frame residency requirement, so a
Success event with resulting leaflet 0 is emitted. -/
theorem claim_C10_counterexample :
    ∃ e ∈ ffEvents 1 [1, 0], e.leaflet = 0 := by decide

/-- C10 (amended): when the input label series contains no midplane
labels, every emitted flip-flop event has a resulting leaflet of +1 or
-1.  (With midplane labels in the input, the spec's state machine can
emit an event whose resulting leaflet is the midplane label 0; see the
counterexample.) -/
theorem claim_C10 (cutoff : Nat) (labels : List Int)
    (h : ∀ l ∈ labels, l = 1 ∨ l = -1) :
    ∀ e ∈ ffEvents cutoff labels, e.leaflet = 1 ∨ e.leaflet = -1 := by
  cases labels with
  | nil => intro e he; simp [ffEvents] at he
  | cons lab rest =>
      intro e he
      simp only [ffEvents] at he
      have hlab : lab = 1 ∨ lab = -1 := h lab (by simp)
      have hlab0 : ¬ lab = 0 := by rcases hlab with hh | hh <;> simp [hh]
      refine ffRunAux_leaflet_pm cutoff rest (ffInit lab) 1 ?_ ?_ e he
      · intro l hl; exact h l (by simp [hl])
      · simp [ffInit, hlab0, ffStateLeafletsOK, hlab]

/-- Witness for C10 at a concrete input and event. -/
theorem claim_C10_witness :
    (FlipFlopEvent.mk 1 0 1 (-1) true).leaflet = 1 ∨
      (FlipFlopEvent.mk 1 0 1 (-1) true).leaflet = -1 :=
  claim_C10 1 [1, -1, -1] (by decide) ⟨1, 0, 1, -1, true⟩ (by decide)

theorem getD_map_range {α : Type} (n : Nat) (f : Nat → α) (i : Nat) (d : α) :
    ((List.range n).map f).getD i d = if i < n then f i else d := by
  by_cases h : i < n
  · rw [List.getD_eq_getElem?_getD, List.getElem?_map, List.getElem?_range h]
    simp [h]
  · rw [List.getD_eq_getElem?_getD,
      List.getElem?_eq_none (by simpa using Nat.le_of_not_lt h)]
    simp [h]

theorem minImageSq_neg (d L : ℚ) : minImageSq (-d) L = minImageSq d L := by
  by_cases hL : 0 < L
  · have hdiv : -d / L = -(d / L) := by ring
    by_cases hf : Int.fract (d / L) = 0
    · have hf2 : Int.fract (-(d / L)) = 0 := Int.fract_neg_eq_zero.mpr hf
      simp [minImageSq, hL, hdiv, hf, hf2]
    · have hf2 : Int.fract (-(d / L)) = 1 - Int.fract (d / L) :=
        Int.fract_neg hf
      simp only [minImageSq, if_pos hL, hdiv, hf2]
      rw [show L * (1 - Int.fract (d / L)) = L - L * Int.fract (d / L) by ring]
      rw [show L - (L - L * Int.fract (d / L)) = L * Int.fract (d / L) by ring]
      rw [min_comm]
  · simp [minImageSq, hL]

theorem distSqPBC_symm (box : Option Pos3) (p q : Pos3) :
    distSqPBC box p q = distSqPBC box q p := by
  cases box with
  | none => simp only [distSqPBC]; ring
  | some b =>
      simp only [distSqPBC]
      rw [show q.1 - p.1 = -(p.1 - q.1) by ring,
        show q.2.1 - p.2.1 = -(p.2.1 - q.2.1) by ring,
        show q.2.2 - p.2.2 = -(p.2.2 - q.2.2) by ring,
        minImageSq_neg, minImageSq_neg, minImageSq_neg]

theorem matAt_neighbourMatrix (cutoff : ℚ) (box : Option Pos3)
    (ps : List Pos3) (i j : Nat) :
    matAt (neighbourMatrix cutoff box ps) i j =
      if i < ps.length ∧ j < ps.length then adjacentB cutoff box ps i j
      else false := by
  unfold matAt neighbourMatrix
  rw [getD_map_range]
  by_cases hi : i < ps.length
  · rw [if_pos hi, getD_map_range]
    by_cases hj : j < ps.length
    · simp [hi, hj]
    · simp [hi, hj]
  · simp [hi]

/-- C4: for every frame configuration, cutoff and pair of distinct
in-range particles, the builder marks the pair adjacent iff their
squared minimum-image distance is strictly below the squared cutoff
(equivalently, distance strictly below cutoff); a pair at exactly the
cutoff distance is not adjacent. -/
theorem claim_C4 (cutoff : ℚ) (box : Option Pos3) (ps : List Pos3)
    (i j : Nat) (hi : i < ps.length) (hj : j < ps.length) (hij : i ≠ j) :
    (matAt (neighbourMatrix cutoff box ps) i j = true ↔
      distSqPBC box (ps.getD i (0, 0, 0)) (ps.getD j (0, 0, 0)) <
        cutoff ^ 2) ∧
    (distSqPBC box (ps.getD i (0, 0, 0)) (ps.getD j (0, 0, 0)) =
        cutoff ^ 2 →
      matAt (neighbourMatrix cutoff box ps) i j = false) := by
  rw [matAt_neighbourMatrix, if_pos ⟨hi, hj⟩]
  constructor
  · simp [adjacentB, hij]
  · intro heq
    unfold adjacentB
    rw [heq]
    simp

/-- Witness for C4: Scenario A of the spec, three particles on a line at
0, 5, 11 in a 20-wide periodic box with cutoff 6; particles 0 and 1
(distance 5) satisfy the adjacency criterion. -/
theorem claim_C4_witness :
    (matAt (neighbourMatrix 6 (some (20, 20, 20))
        [(0, 0, 0), (5, 0, 0), (11, 0, 0)]) 0 1 = true ↔
      distSqPBC (some (20, 20, 20))
        (([(0, 0, 0), (5, 0, 0), (11, 0, 0)] : List Pos3).getD 0 (0, 0, 0))
        (([(0, 0, 0), (5, 0, 0), (11, 0, 0)] : List Pos3).getD 1 (0, 0, 0)) <
        6 ^ 2) ∧
    (distSqPBC (some (20, 20, 20))
        (([(0, 0, 0), (5, 0, 0), (11, 0, 0)] : List Pos3).getD 0 (0, 0, 0))
        (([(0, 0, 0), (5, 0, 0), (11, 0, 0)] : List Pos3).getD 1 (0, 0, 0)) =
        6 ^ 2 →
      matAt (neighbourMatrix 6 (some (20, 20, 20))
        [(0, 0, 0), (5, 0, 0), (11, 0, 0)]) 0 1 = false) :=
  claim_C4 6 (some (20, 20, 20)) [(0, 0, 0), (5, 0, 0), (11, 0, 0)] 0 1
    (by decide) (by decide) (by decide)

/-- C5: the neighbour matrix of every frame is symmetric and no
particle is adjacent to itself. -/
theorem claim_C5 (cutoff : ℚ) (box : Option Pos3) (ps : List Pos3)
    (i j : Nat) :
    matAt (neighbourMatrix cutoff box ps) i j =
      matAt (neighbourMatrix cutoff box ps) j i ∧
    matAt (neighbourMatrix cutoff box ps) i i = false := by
  constructor
  · rw [matAt_neighbourMatrix, matAt_neighbourMatrix]
    by_cases hi : i < ps.length
    · by_cases hj : j < ps.length
      · rw [if_pos ⟨hi, hj⟩, if_pos ⟨hj, hi⟩]
        unfold adjacentB
        rw [distSqPBC_symm, decide_eq_decide.mpr ne_comm]
      · simp [hi, hj]
    · simp [hi]
  · rw [matAt_neighbourMatrix]
    by_cases hi : i < ps.length
    · rw [if_pos ⟨hi, hi⟩]; simp [adjacentB]
    · simp [hi]

/-- C8: adjacency construction raises `ConfigurationError` exactly when
the cutoff is not positive or fewer than two particles are selected;
with a positive cutoff and at least two particles it succeeds. -/
theorem claim_C8 (cutoff : ℚ) (box : Option Pos3) (ps : List Pos3) :
    (mkNeighbours cutoff box ps =
        Except.error AnalysisError.configurationError ↔
      (cutoff ≤ 0 ∨ ps.length < 2)) ∧
    ((mkNeighbours cutoff box ps).isOk = true ↔
      (0 < cutoff ∧ 2 ≤ ps.length)) := by
  unfold mkNeighbours
  by_cases h1 : cutoff ≤ 0
  · simp [h1, Except.isOk, Except.toBool]
  · by_cases h2 : ps.length < 2
    · simp [h1, h2, Except.isOk, Except.toBool]
    · constructor
      · simp only [if_neg h1, if_neg h2]
        constructor
        · intro h; cases h
        · intro h; rcases h with h | h
          · exact absurd h h1
          · exact absurd h h2
      · simp only [if_neg h1, if_neg h2, Except.isOk, Except.toBool]
        constructor
        · intro _; exact ⟨lt_of_not_ge h1, Nat.le_of_not_lt h2⟩
        · intro _; trivial

theorem lexLt_irrefl : ∀ a, lexLt a a = false := by
  intro a
  induction a with
  | nil => rfl
  | cons x xs ih => simp [lexLt, ih]

theorem lexLt_trans :
    ∀ a b c, lexLt a b = true → lexLt b c = true → lexLt a c = true := by
  intro a
  induction a with
  | nil =>
      intro b c hab hbc
      cases b with
      | nil => simp [lexLt] at hab
      | cons y ys =>
          cases c with
          | nil => simp [lexLt] at hbc
          | cons z zs => simp [lexLt]
  | cons x xs ih =>
      intro b c hab hbc
      cases b with
      | nil => simp [lexLt] at hab
      | cons y ys =>
          cases c with
          | nil => simp [lexLt] at hbc
          | cons z zs =>
              simp only [lexLt, Bool.or_eq_true, Bool.and_eq_true,
                decide_eq_true_eq] at hab hbc ⊢
              rcases hab with hab | ⟨hab1, hab2⟩
              · rcases hbc with hbc | ⟨hbc1, hbc2⟩
                · exact Or.inl (lt_trans hab hbc)
                · exact Or.inl (hbc1 ▸ hab)
              · rcases hbc with hbc | ⟨hbc1, hbc2⟩
                · exact Or.inl (hab1 ▸ hbc)
                · exact Or.inr ⟨hab1.trans hbc1, ih ys zs hab2 hbc2⟩

theorem lexLt_total :
    ∀ a b, lexLt a b = false → a = b ∨ lexLt b a = true := by
  intro a
  induction a with
  | nil =>
      intro b h
      cases b with
      | nil => exact Or.inl rfl
      | cons y ys => simp [lexLt] at h
  | cons x xs ih =>
      intro b h
      cases b with
      | nil => exact Or.inr (by simp [lexLt])
      | cons y ys =>
          simp only [lexLt, Bool.or_eq_false_iff, Bool.and_eq_false_iff,
            decide_eq_false_iff_not] at h
          obtain ⟨h1, h2⟩ := h
          by_cases hxy : x = y
          · subst hxy
            rcases h2 with h2 | h2
            · exact absurd rfl h2
            · rcases ih ys h2 with h3 | h3
              · exact Or.inl (by rw [h3])
              · exact Or.inr (by simp [lexLt, h3])
          · have hyx : y < x := by omega
            exact Or.inr (by simp [lexLt, hyx])

theorem keyLt_irrefl (a : List Nat) : keyLt a a = false := by
  simp [keyLt, lexLt_irrefl]

theorem keyLt_better_trans (x acc c : List Nat)
    (h1 : keyLt x acc = false) (h2 : keyLt c acc = true) :
    keyLt x c = false := by
  simp only [keyLt, Bool.or_eq_false_iff, Bool.and_eq_false_iff,
    decide_eq_false_iff_not, Bool.or_eq_true, Bool.and_eq_true,
    decide_eq_true_eq] at h1 h2 ⊢
  obtain ⟨h1a, h1b⟩ := h1
  rcases h2 with h2 | ⟨h2a, h2b⟩
  · constructor
    · omega
    · left; omega
  · constructor
    · omega
    · by_cases hlen : x.length = c.length
      · right
        have hxa : x.length = acc.length := by omega
        rcases h1b with hb | hb
        · exact absurd hxa hb
        · cases hxc : lexLt x c with
          | false => rfl
          | true =>
              have hcon := lexLt_trans x c acc hxc h2b
              simp [hcon] at hb
      · exact Or.inl hlen

theorem keyLt_foldl (l : List (List Nat)) :
    ∀ (acc x : List Nat), keyLt x acc = false →
      keyLt x (l.foldl pickBetter acc) = false := by
  induction l with
  | nil => intro acc x h; simpa using h
  | cons c rest ih =>
      intro acc x h
      simp only [List.foldl_cons]
      unfold pickBetter
      by_cases hc : keyLt c acc = true
      · rw [if_pos hc]
        exact ih c x (keyLt_better_trans x acc c h hc)
      · rw [if_neg hc]
        exact ih acc x h

theorem foldl_pickBetter_not_better (l : List (List Nat)) :
    ∀ (acc C : List Nat), C ∈ l →
      keyLt C (l.foldl pickBetter acc) = false := by
  induction l with
  | nil => intro acc C hC; simp at hC
  | cons c rest ih =>
      intro acc C hC
      simp only [List.foldl_cons]
      rcases List.mem_cons.mp hC with hC | hC
      · subst hC
        apply keyLt_foldl
        unfold pickBetter
        by_cases hc : keyLt C acc = true
        · rw [if_pos hc]; exact keyLt_irrefl C
        · rw [if_neg hc]; exact Bool.eq_false_iff.mpr hc
      · exact ih (pickBetter acc c) C hC

theorem chooseBest_not_better (comps : List (List Nat)) :
    ∀ C ∈ comps, keyLt C (chooseBest comps) = false := by
  intro C hC
  exact foldl_pickBetter_not_better comps [] C hC

theorem foldl_pickBetter_mem (l : List (List Nat)) :
    ∀ acc, l.foldl pickBetter acc = acc ∨ l.foldl pickBetter acc ∈ l := by
  induction l with
  | nil => intro acc; exact Or.inl rfl
  | cons c rest ih =>
      intro acc
      simp only [List.foldl_cons]
      have hpick : pickBetter acc c = c ∨ pickBetter acc c = acc := by
        unfold pickBetter
        by_cases hc : keyLt c acc = true
        · exact Or.inl (if_pos hc)
        · exact Or.inr (if_neg hc)
      rcases ih (pickBetter acc c) with h | h
      · rcases hpick with hp | hp
        · rw [hp] at h ⊢
          exact Or.inr (by rw [h]; exact List.mem_cons_self c rest)
        · rw [hp] at h ⊢
          exact Or.inl h
      · exact Or.inr (List.mem_cons_of_mem c h)

/-- C6: at every analysed frame the returned largest cluster is one of
the components of the masked, filtered subgraph, no component is larger,
and any other component of equal (maximum) size has a lexicographically
larger-or-equal sorted member list — so the result is the
lexicographically smallest sorted list among the maximum-size
components, deterministically. -/
theorem claim_C6 (st : NbStore) (fl : List Bool)
    (mask : Option (List (List Bool))) (f : Nat)
    (hf : f < st.mats.length) (C : List Nat)
    (hC : C ∈ componentsAt (st.mats.getD f []) (vertsAt st.n fl mask f)) :
    (largestClusterIndices st fl mask).getD f [] ∈
      componentsAt (st.mats.getD f []) (vertsAt st.n fl mask f) ∧
    C.length ≤ ((largestClusterIndices st fl mask).getD f []).length ∧
    (C.length = ((largestClusterIndices st fl mask).getD f []).length →
      (largestClusterIndices st fl mask).getD f [] = C ∨
        lexLt ((largestClusterIndices st fl mask).getD f []) C = true) := by
  have hget : (largestClusterIndices st fl mask).getD f [] =
      lcIndicesAt st fl mask f := by
    unfold largestClusterIndices
    rw [getD_map_range, if_pos hf]
  rw [hget]
  have hnb := chooseBest_not_better
    (componentsAt (st.mats.getD f []) (vertsAt st.n fl mask f)) C hC
  have hnb2 : keyLt C (lcIndicesAt st fl mask f) = false := hnb
  refine ⟨?_, ?_, ?_⟩
  · have hmem := foldl_pickBetter_mem
      (componentsAt (st.mats.getD f []) (vertsAt st.n fl mask f)) []
    rcases hmem with h | h
    · have hnil : lcIndicesAt st fl mask f = [] := h
      rw [hnil] at hnb2 ⊢
      have hCnil : C = [] := by
        simp only [keyLt, List.length_nil, Bool.or_eq_false_iff,
          decide_eq_false_iff_not] at hnb2
        have h0 : C.length = 0 := by omega
        exact List.eq_nil_of_length_eq_zero h0
      exact hCnil ▸ hC
    · exact h
  · simp only [keyLt, Bool.or_eq_false_iff, decide_eq_false_iff_not] at hnb2
    exact Nat.le_of_not_lt hnb2.1
  · intro heq
    simp only [keyLt, Bool.or_eq_false_iff, Bool.and_eq_false_iff,
      decide_eq_false_iff_not] at hnb2
    rcases hnb2.2 with h2 | h2
    · exact absurd heq h2
    · rcases lexLt_total C (lcIndicesAt st fl mask f) h2 with h3 | h3
      · exact Or.inl h3.symm
      · exact Or.inr h3

/-- Witness for C6: in the two-component tie the query returns [0, 1],
which is no smaller than [2, 3] and lexicographically smaller. -/
theorem claim_C6_witness :
    (largestClusterIndices exampleStore [true, true, true, true] none).getD
        0 [] ∈
      componentsAt (exampleStore.mats.getD 0 [])
        (vertsAt exampleStore.n [true, true, true, true] none 0) ∧
    ([2, 3] : List Nat).length ≤
      ((largestClusterIndices exampleStore
        [true, true, true, true] none).getD 0 []).length ∧
    (([2, 3] : List Nat).length =
        ((largestClusterIndices exampleStore
          [true, true, true, true] none).getD 0 []).length →
      (largestClusterIndices exampleStore
          [true, true, true, true] none).getD 0 [] = [2, 3] ∨
        lexLt ((largestClusterIndices exampleStore
          [true, true, true, true] none).getD 0 []) [2, 3] = true) :=
  claim_C6 exampleStore [true, true, true, true] none 0 (by decide)
    [2, 3] (by decide)

/-- C7: at a frame where no particle of the filter set survives the
inclusion mask, the reported largest-cluster size is 0 and the index
array is empty, and both result sequences still carry one entry per
analysed frame. -/
theorem claim_C7 (st : NbStore) (fl : List Bool)
    (mask : Option (List (List Bool))) (f : Nat)
    (hf : f < st.mats.length)
    (hv : vertsAt st.n fl mask f = []) :
    (largestClusterSizes st fl mask).getD f 1 = 0 ∧
    (largestClusterIndices st fl mask).getD f [0] = [] ∧
    (largestClusterSizes st fl mask).length = st.mats.length ∧
    (largestClusterIndices st fl mask).length = st.mats.length := by
  have hlc : lcIndicesAt st fl mask f = [] := by
    unfold lcIndicesAt componentsAt
    rw [hv]
    rfl
  refine ⟨?_, ?_, ?_, ?_⟩
  · unfold largestClusterSizes
    rw [getD_map_range, if_pos hf, hlc]
    rfl
  · unfold largestClusterIndices
    rw [getD_map_range, if_pos hf]
    exact hlc
  · unfold largestClusterSizes
    simp
  · unfold largestClusterIndices
    simp

/-- Witness for C7: a one-particle store whose mask excludes the only
particle at the only frame. -/
theorem claim_C7_witness :
    (largestClusterSizes ⟨1, [[[false]]]⟩ [true]
        (some [[false]])).getD 0 1 = 0 ∧
    (largestClusterIndices ⟨1, [[[false]]]⟩ [true]
        (some [[false]])).getD 0 [0] = [] ∧
    (largestClusterSizes ⟨1, [[[false]]]⟩ [true]
        (some [[false]])).length = (⟨1, [[[false]]]⟩ : NbStore).mats.length ∧
    (largestClusterIndices ⟨1, [[[false]]]⟩ [true]
        (some [[false]])).length = (⟨1, [[[false]]]⟩ : NbStore).mats.length :=
  claim_C7 ⟨1, [[[false]]]⟩ [true] (some [[false]]) 0 (by decide) (by decide)

/-- C9: at every analysed frame the length of the returned index array
equals the reported cluster size for that frame. -/
theorem claim_C9 (st : NbStore) (fl : List Bool)
    (mask : Option (List (List Bool))) (f : Nat)
    (hf : f < st.mats.length) :
    ((largestClusterIndices st fl mask).getD f []).length =
      (largestClusterSizes st fl mask).getD f 0 := by
  unfold largestClusterIndices largestClusterSizes
  rw [getD_map_range, getD_map_range, if_pos hf, if_pos hf]

/-- Witness for C9 at the example store. -/
theorem claim_C9_witness :
    ((largestClusterIndices exampleStore
        [true, true, true, true] none).getD 0 []).length =
      (largestClusterSizes exampleStore
        [true, true, true, true] none).getD 0 0 :=
  claim_C9 exampleStore [true, true, true, true] none 0 (by decide)
